import Mathlib

/-!
Verification of the restaurant-review service (`src/app.py`).

The service stores restaurants and reviews in a record store (SQLAlchemy /
Postgres) and maintains a Redis sorted set `restaurant:leaderboard` mapping
`str(restaurant_id)` to the restaurant's average sentiment.  We embed the
state shallowly:

* the record store is two tables, `restaurants` and `reviews`, plus the
  primary-key counter `nextId`;
* the Redis sorted set is an association list `board : List (Nat × ℚ)`
  (member `str(id)` is identified with `id`; ordering happens at query time,
  by score and then by the lexicographic order of the decimal member string,
  exactly as Redis orders a sorted set);
* sentiment scores are exact rationals (`ℚ`); Python's `round(x, 2)` is
  round-half-to-even at two decimal places;
* the sentiment analyzer (VADER) is an opaque external collaborator,
  a parameter `analyze : String → ℚ × String`;
* HTTP handlers are state transformers returning the status code plus any
  response field a claim needs.
-/

namespace RestaurantReview

/-- Python's `round(x, 2)` at the integer level: round half to even. -/
def roundHalfEven (q : ℚ) : ℤ :=
  if q - ⌊q⌋ < 1/2 then ⌊q⌋
  else if (1 : ℚ)/2 < q - ⌊q⌋ then ⌊q⌋ + 1
  else if ⌊q⌋ % 2 = 0 then ⌊q⌋ else ⌊q⌋ + 1

/-- `round(q, 2)`: round to two decimal places, half to even. -/
def round2 (q : ℚ) : ℚ := (roundHalfEven (q * 100) : ℚ) / 100

/-- A row of the `reviews` table (`class Review` in `src/app.py`).
Timestamps are omitted: no claim mentions them. -/
structure Review where
  restaurant_id : Nat
  text : String
  sentiment_score : ℚ
  sentiment_label : String
deriving DecidableEq

/-- A row of the `restaurants` table (`class Restaurant` in `src/app.py`). -/
structure Restaurant where
  id : Nat
  name : String
  location : String
deriving DecidableEq

/-- The whole mutable state: the two record-store tables, the primary-key
counter, and the Redis sorted set `restaurant:leaderboard`. -/
structure AppState where
  restaurants : List Restaurant
  reviews : List Review
  nextId : Nat
  board : List (Nat × ℚ)
deriving DecidableEq

/-- `Restaurant.query.get(rid)`. -/
def getRestaurant (s : AppState) (rid : Nat) : Option Restaurant :=
  s.restaurants.find? (fun r => r.id == rid)

/-- `restaurant.reviews`: the SQLAlchemy relationship, i.e. all rows of the
`reviews` table whose foreign key is `rid`. -/
def reviewsOf (s : AppState) (rid : Nat) : List Review :=
  s.reviews.filter (fun rv => rv.restaurant_id == rid)

/-- `Restaurant.get_average_sentiment` (src/app.py lines 36-41), as a function
of the materialized review list:
`0` if there are no reviews, else `round(sum/len, 2)`. -/
def get_average_sentiment (reviews : List Review) : ℚ :=
  if reviews = [] then 0
  else round2 ((reviews.map (·.sentiment_score)).sum / reviews.length)

/-- Spec-side definition (§4.1 of the spec, for the refinement claims):
"0 if the set is empty; otherwise the arithmetic mean of all member sentiment
scores, rounded to 2 decimal places". -/
def specAverageSentiment (scores : List ℚ) : ℚ :=
  if scores = [] then 0 else round2 (scores.sum / scores.length)

/-- `redis_client.zadd(KEY, {str(id): score})`: insert the member or update
its score in place. -/
def zadd (b : List (Nat × ℚ)) (id : Nat) (sc : ℚ) : List (Nat × ℚ) :=
  if b.any (fun p => p.1 == id) then
    b.map (fun p => if p.1 == id then (id, sc) else p)
  else b ++ [(id, sc)]

/-- `redis_client.zrem(KEY, str(id))`: drop the member if present. -/
def zrem (b : List (Nat × ℚ)) (id : Nat) : List (Nat × ℚ) :=
  b.filter (fun p => ! (p.1 == id))

/-- The score currently stored for a member of the sorted set. -/
def zscore (b : List (Nat × ℚ)) (id : Nat) : Option ℚ :=
  (b.find? (fun p => p.1 == id)).map (·.2)

/-- Python truthiness of `data.get(field)` for an integer field:
falsy when missing or `0`. -/
def isFalsyNat : Option Nat → Bool
  | none => true
  | some n => n == 0

/-- Python truthiness of `data.get(field)` for a string field:
falsy when missing or empty. -/
def isFalsyStr : Option String → Bool
  | none => true
  | some t => t == ""

/-- `update_leaderboard` (src/app.py lines 87-97) with an explicit model of
Redis availability: `redisUp = false` makes the `zadd` call raise, which the
caller does not catch (`none` = unhandled exception).  The `zadd` is attempted
exactly when the restaurant exists and has at least one review. -/
def update_leaderboardF (redisUp : Bool) (s : AppState) (rid : Nat) :
    Option AppState :=
  match getRestaurant s rid with
  | some _ =>
      if reviewsOf s rid = [] then some s
      else if redisUp then
        some { s with board := zadd s.board rid (get_average_sentiment (reviewsOf s rid)) }
      else none
  | none => some s

/-- `update_leaderboard` when Redis is reachable (the normal path). -/
def update_leaderboard (s : AppState) (rid : Nat) : AppState :=
  (update_leaderboardF true s rid).getD s

/-- `POST /restaurants` (src/app.py lines 153-168).  Returns the HTTP status
and the next state.  The record store assigns the next primary key. -/
def add_restaurant (s : AppState) (name? location? : Option String) :
    Nat × AppState :=
  if isFalsyStr name? || isFalsyStr location? then (400, s)
  else
    (201, { s with
      restaurants := s.restaurants ++ [⟨s.nextId, name?.getD "", location?.getD ""⟩],
      nextId := s.nextId + 1 })

/-- The record-store state right after committing a review row. -/
def reviewState (s : AppState) (rv : Review) : AppState :=
  { s with reviews := s.reviews ++ [rv] }

/-- `POST /reviews` (src/app.py lines 170-200), with the Redis-availability
parameter threaded to `update_leaderboardF`.  Returns
`((status, leaderboard_updated flag of the body), state)`; an uncaught Redis
exception surfaces as a 500 after the review row was already committed. -/
def add_reviewF (redisUp : Bool) (analyze : String → ℚ × String) (s : AppState)
    (rid? : Option Nat) (text? : Option String) : (Nat × Option Bool) × AppState :=
  if isFalsyNat rid? || isFalsyStr text? then ((400, none), s)
  else
    match getRestaurant s (rid?.getD 0) with
    | none => ((404, none), s)
    | some _ =>
        match update_leaderboardF redisUp
            (reviewState s ⟨rid?.getD 0, text?.getD "",
              (analyze (text?.getD "")).1, (analyze (text?.getD "")).2⟩)
            (rid?.getD 0) with
        | some s2 => ((201, some true), s2)
        | none => ((500, none),
            reviewState s ⟨rid?.getD 0, text?.getD "",
              (analyze (text?.getD "")).1, (analyze (text?.getD "")).2⟩)

/-- `POST /reviews` on the normal path (Redis reachable). -/
def add_review (analyze : String → ℚ × String) (s : AppState)
    (rid? : Option Nat) (text? : Option String) : (Nat × Option Bool) × AppState :=
  add_reviewF true analyze s rid? text?

/-- `DELETE /restaurants/<id>` (src/app.py lines 254-266): cascade-delete the
reviews (the relationship is `cascade='all, delete-orphan'`), then `zrem`. -/
def delete_restaurant (s : AppState) (rid : Nat) : Nat × AppState :=
  match getRestaurant s rid with
  | none => (404, s)
  | some _ =>
      (200, { s with
        restaurants := s.restaurants.filter (fun r => ! (r.id == rid)),
        reviews := s.reviews.filter (fun rv => ! (rv.restaurant_id == rid)),
        board := zrem s.board rid })

/-! ## The query side of the sorted set

Redis iterates a sorted set by score and, for equal scores, by the
lexicographic (byte-wise) order of the member strings.  Members here are
`str(restaurant_id)`, so the tie-break is the lexicographic order of the
decimal digit strings, which we model as `List.Lex`-style order on the
most-significant-first digit lists. -/

/-- Base-10 digits, least significant first, with explicit fuel so that the
kernel can evaluate it (`Nat.digits` itself is well-founded recursion). -/
def decDigitsAux : Nat → Nat → List Nat
  | _, 0 => []
  | 0, _ + 1 => []
  | f + 1, n + 1 => ((n + 1) % 10) :: decDigitsAux f ((n + 1) / 10)

/-- The decimal digit string of a member id, most significant digit first. -/
def decKey (n : Nat) : List Nat := (decDigitsAux n n).reverse

/-- Strict lexicographic order on digit strings (byte-wise string `<`). -/
def lexLtB : List Nat → List Nat → Bool
  | _, [] => false
  | [], _ :: _ => true
  | a :: as, b :: bs => if a < b then true else if b < a then false else lexLtB as bs

/-- Redis member order: `str(a) ≤ str(b)` lexicographically. -/
def memberLe (a b : Nat) : Prop := a = b ∨ lexLtB (decKey a) (decKey b) = true

instance : DecidableRel memberLe := fun a b =>
  inferInstanceAs (Decidable (a = b ∨ lexLtB (decKey a) (decKey b) = true))

/-- The total order in which Redis stores sorted-set entries: by score
ascending, ties by member string ascending. -/
def entryLe (x y : Nat × ℚ) : Prop :=
  x.2 < y.2 ∨ (x.2 = y.2 ∧ memberLe x.1 y.1)

instance : DecidableRel entryLe := fun x y =>
  inferInstanceAs (Decidable (x.2 < y.2 ∨ (x.2 = y.2 ∧ memberLe x.1 y.1)))

/-- The reversed order (what `ZREVRANGE` iterates). -/
def entryGe (x y : Nat × ℚ) : Prop := entryLe y x

instance : DecidableRel entryGe := fun x y =>
  inferInstanceAs (Decidable (entryLe y x))

/-- The ascending sequence of sorted-set entries (`ZRANGE` order). -/
def sortAsc (b : List (Nat × ℚ)) : List (Nat × ℚ) := List.insertionSort entryLe b

/-- The descending sequence of sorted-set entries (`ZREVRANGE` order). -/
def sortDesc (b : List (Nat × ℚ)) : List (Nat × ℚ) := List.insertionSort entryGe b

/-- Convert a Redis range index into an absolute 0-based position: a negative
index counts from the end of the list (`-1` = last element). -/
def redisIdx (n : ℤ) (i : ℤ) : ℤ := if i < 0 then n + i else i

/-- Redis `start`/`stop` range extraction: both indices are inclusive,
negative indices count from the end, and out-of-range combinations yield an
empty reply. -/
def redisRange (l : List (Nat × ℚ)) (start stop : ℤ) : List (Nat × ℚ) :=
  if max (redisIdx l.length start) 0 ≤ redisIdx l.length stop then
    (l.take ((redisIdx l.length stop).toNat + 1)).drop
      (max (redisIdx l.length start) 0).toNat
  else []

/-- `redis_client.zrange(KEY, start, stop, withscores=True)`. -/
def zrange (b : List (Nat × ℚ)) (start stop : ℤ) : List (Nat × ℚ) :=
  redisRange (sortAsc b) start stop

/-- `redis_client.zrevrange(KEY, start, stop, withscores=True)`. -/
def zrevrange (b : List (Nat × ℚ)) (start stop : ℤ) : List (Nat × ℚ) :=
  redisRange (sortDesc b) start stop

/-- `Restaurant.to_dict` (src/app.py lines 43-51), minus the timestamp. -/
structure RestaurantDict where
  id : Nat
  name : String
  location : String
  average_sentiment : ℚ
  total_reviews : Nat
deriving DecidableEq

/-- One element of a leaderboard response body. -/
structure RankedEntry where
  rank : Nat
  restaurant : RestaurantDict
  cached_sentiment : ℚ
deriving DecidableEq

/-- `restaurant.to_dict()` evaluated in state `s`. -/
def to_dict (s : AppState) (r : Restaurant) : RestaurantDict :=
  ⟨r.id, r.name, r.location,
    get_average_sentiment (reviewsOf s r.id), (reviewsOf s r.id).length⟩

/-- The shared `for idx, (restaurant_id, score) in enumerate(...)` loop of the
three leaderboard handlers: hydrate each member from the record store,
silently dropping members whose restaurant no longer exists; the rank is
`idx + 1` where `idx` enumerates the *unfiltered* Redis reply. -/
def hydrate (s : AppState) (l : List (Nat × (Nat × ℚ))) : List RankedEntry :=
  l.filterMap (fun p =>
    match getRestaurant s p.2.1 with
    | some r => some ⟨p.1 + 1, to_dict s r, round2 p.2.2⟩
    | none => none)

/-- `get_leaderboard_from_redis` (src/app.py lines 99-117):
`zrevrange(KEY, 0, -1)`, then hydrate. -/
def get_leaderboard_from_redis (s : AppState) : List RankedEntry :=
  hydrate s (List.enum (zrevrange s.board 0 (-1)))

/-- `GET /leaderboard/top/<n>` (src/app.py lines 213-231):
`zrevrange(KEY, 0, n-1)`, then hydrate. -/
def get_top_restaurants (s : AppState) (n : Nat) : List RankedEntry :=
  hydrate s (List.enum (zrevrange s.board 0 ((n : ℤ) - 1)))

/-- `GET /leaderboard/bottom/<n>` (src/app.py lines 233-251):
`zrange(KEY, 0, n-1)`, then hydrate. -/
def get_bottom_restaurants (s : AppState) (n : Nat) : List RankedEntry :=
  hydrate s (List.enum (zrange s.board 0 ((n : ℤ) - 1)))

/-- 1-based rank of a member in the descending (global) leaderboard order. -/
def rank_desc (b : List (Nat × ℚ)) (id : Nat) : Nat :=
  ((sortDesc b).map Prod.fst).indexOf id + 1

/-- 1-based rank of a member in the ascending order, i.e. the quantity
`total_count - p` for `p` the 0-based *descending* position of the member:
the rank complementary to `rank_desc`. -/
def rank_asc (b : List (Nat × ℚ)) (id : Nat) : Nat :=
  ((sortAsc b).map Prod.fst).indexOf id + 1

/-! ## Order facts about the sorted-set iteration order -/

theorem lexLtB_nil_right (l : List Nat) : lexLtB l [] = false := by
  cases l <;> rfl

theorem lexLtB_irrefl : ∀ l : List Nat, lexLtB l l = false := by
  intro l
  induction l with
  | nil => rfl
  | cons a as ih => simp [lexLtB, ih]

theorem lexLtB_trans : ∀ l₁ l₂ l₃ : List Nat, lexLtB l₁ l₂ = true →
    lexLtB l₂ l₃ = true → lexLtB l₁ l₃ = true := by
  intro l₁
  induction l₁ with
  | nil =>
      intro l₂ l₃ h1 h2
      cases l₃ with
      | nil => cases l₂ <;> simp [lexLtB, lexLtB_nil_right] at h1 h2
      | cons c cs => rfl
  | cons a as ih =>
      intro l₂ l₃ h1 h2
      cases l₂ with
      | nil => simp [lexLtB_nil_right] at h1
      | cons b bs =>
          cases l₃ with
          | nil => simp [lexLtB_nil_right] at h2
          | cons c cs =>
              simp only [lexLtB] at h1 h2 ⊢
              split_ifs at h1 h2 ⊢ <;>
                first
                | rfl
                | omega
                | exact ih bs cs h1 h2

theorem lexLtB_asymm : ∀ l₁ l₂ : List Nat, lexLtB l₁ l₂ = true →
    lexLtB l₂ l₁ = true → False := by
  intro l₁
  induction l₁ with
  | nil => intro l₂ h1 h2; simp [lexLtB_nil_right] at h2
  | cons a as ih =>
      intro l₂ h1 h2
      cases l₂ with
      | nil => simp [lexLtB_nil_right] at h1
      | cons b bs =>
          simp only [lexLtB] at h1 h2
          split_ifs at h1 h2 <;>
            first
            | omega
            | exact ih bs h1 h2

theorem lexLtB_total : ∀ l₁ l₂ : List Nat,
    l₁ = l₂ ∨ lexLtB l₁ l₂ = true ∨ lexLtB l₂ l₁ = true := by
  intro l₁
  induction l₁ with
  | nil =>
      intro l₂
      cases l₂ with
      | nil => exact Or.inl rfl
      | cons c cs => exact Or.inr (Or.inl rfl)
  | cons a as ih =>
      intro l₂
      cases l₂ with
      | nil => exact Or.inr (Or.inr rfl)
      | cons b bs =>
          rcases Nat.lt_trichotomy a b with h | h | h
          · exact Or.inr (Or.inl (by simp [lexLtB, h]))
          · subst h
            rcases ih bs with h' | h' | h'
            · exact Or.inl (by rw [h'])
            · exact Or.inr (Or.inl (by simp [lexLtB, Nat.lt_irrefl, h']))
            · exact Or.inr (Or.inr (by simp [lexLtB, Nat.lt_irrefl, h']))
          · exact Or.inr (Or.inr (by simp [lexLtB, h]))

theorem decDigitsAux_eq_digits (f n : Nat) (h : n ≤ f) :
    decDigitsAux f n = Nat.digits 10 n := by
  induction f generalizing n with
  | zero =>
      have hn : n = 0 := Nat.le_zero.mp h
      subst hn
      simp [decDigitsAux]
  | succ f ih =>
      cases n with
      | zero => simp [decDigitsAux]
      | succ n =>
          rw [decDigitsAux, Nat.digits_def' (by omega : 1 < 10) (Nat.succ_pos n)]
          congr 1
          exact ih ((n + 1) / 10) (by omega)

theorem decKey_eq (n : Nat) : decKey n = (Nat.digits 10 n).reverse := by
  unfold decKey
  rw [decDigitsAux_eq_digits n n le_rfl]

theorem decKey_injective : Function.Injective decKey := by
  intro a b h
  rw [decKey_eq, decKey_eq] at h
  have h' : Nat.digits 10 a = Nat.digits 10 b := by
    have := congrArg List.reverse h
    simpa using this
  exact Nat.digits.injective 10 h'

theorem memberLe_refl (a : Nat) : memberLe a a := Or.inl rfl

theorem memberLe_trans {a b c : Nat} (h1 : memberLe a b) (h2 : memberLe b c) :
    memberLe a c := by
  rcases h1 with rfl | h1
  · exact h2
  · rcases h2 with rfl | h2
    · exact Or.inr h1
    · exact Or.inr (lexLtB_trans _ _ _ h1 h2)

theorem memberLe_antisymm {a b : Nat} (h1 : memberLe a b) (h2 : memberLe b a) :
    a = b := by
  rcases h1 with rfl | h1
  · rfl
  · rcases h2 with rfl | h2
    · rfl
    · exact (lexLtB_asymm _ _ h1 h2).elim

theorem memberLe_total (a b : Nat) : memberLe a b ∨ memberLe b a := by
  rcases lexLtB_total (decKey a) (decKey b) with h | h | h
  · exact Or.inl (Or.inl (decKey_injective h))
  · exact Or.inl (Or.inr h)
  · exact Or.inr (Or.inr h)

instance : IsTrans (Nat × ℚ) entryLe := by
  constructor
  intro x y z h1 h2
  rcases h1 with h1 | ⟨e1, m1⟩
  · rcases h2 with h2 | ⟨e2, m2⟩
    · exact Or.inl (lt_trans h1 h2)
    · exact Or.inl (e2 ▸ h1)
  · rcases h2 with h2 | ⟨e2, m2⟩
    · exact Or.inl (e1 ▸ h2)
    · exact Or.inr ⟨e1.trans e2, memberLe_trans m1 m2⟩

instance : IsTotal (Nat × ℚ) entryLe := by
  constructor
  intro x y
  rcases lt_trichotomy x.2 y.2 with h | h | h
  · exact Or.inl (Or.inl h)
  · rcases memberLe_total x.1 y.1 with hm | hm
    · exact Or.inl (Or.inr ⟨h, hm⟩)
    · exact Or.inr (Or.inr ⟨h.symm, hm⟩)
  · exact Or.inr (Or.inl h)

instance : IsAntisymm (Nat × ℚ) entryLe := by
  constructor
  intro x y h1 h2
  rcases h1 with h1 | ⟨e1, m1⟩
  · rcases h2 with h2 | ⟨e2, m2⟩
    · exact absurd h1 (lt_asymm h2)
    · exact absurd h1 (e2 ▸ lt_irrefl _)
  · rcases h2 with h2 | ⟨e2, m2⟩
    · exact absurd h2 (e1 ▸ lt_irrefl _)
    · exact Prod.ext (memberLe_antisymm m1 m2) e1

instance : IsTrans (Nat × ℚ) entryGe :=
  ⟨fun a b c h1 h2 => IsTrans.trans (r := entryLe) c b a h2 h1⟩

instance : IsTotal (Nat × ℚ) entryGe :=
  ⟨fun x y => total_of entryLe y x⟩

instance : IsAntisymm (Nat × ℚ) entryGe :=
  ⟨fun _ _ h1 h2 => antisymm (r := entryLe) h2 h1⟩

theorem sortAsc_sorted (b : List (Nat × ℚ)) : (sortAsc b).Sorted entryLe :=
  List.sorted_insertionSort entryLe b

theorem sortAsc_perm (b : List (Nat × ℚ)) : List.Perm (sortAsc b) b :=
  List.perm_insertionSort entryLe b

theorem sortDesc_perm (b : List (Nat × ℚ)) : List.Perm (sortDesc b) b :=
  List.perm_insertionSort entryGe b

/-- The descending iteration of the sorted set is exactly the reverse of the
ascending one. -/
theorem sortDesc_eq_reverse (b : List (Nat × ℚ)) :
    sortDesc b = (sortAsc b).reverse := by
  apply List.eq_of_perm_of_sorted (r := entryGe)
  · exact (sortDesc_perm b).trans
      ((sortAsc_perm b).symm.trans (sortAsc b).reverse_perm.symm)
  · exact List.sorted_insertionSort entryGe b
  · exact List.pairwise_reverse.mpr (sortAsc_sorted b)

/-- C5: over one and the same leaderboard state, the id sequence of the full
descending range query (`zrevrange 0 -1`) is exactly the reverse of the id
sequence of the full ascending range query (`zrange 0 -1`) — the tie-break
being the deterministic member order of the sorted set — and for every member,
its 1-based descending rank and its 1-based ascending rank (the quantity
`total_count - p` for `p` its 0-based descending position) sum to
`total_count + 1`. -/
theorem range_desc_reverse_of_range_asc (b : List (Nat × ℚ))
    (hnd : (b.map Prod.fst).Nodup) :
    (sortDesc b).map Prod.fst = ((sortAsc b).map Prod.fst).reverse ∧
    ∀ id ∈ b.map Prod.fst, rank_desc b id + rank_asc b id = b.length + 1 := by
  have hrev : (sortDesc b).map Prod.fst = ((sortAsc b).map Prod.fst).reverse := by
    rw [sortDesc_eq_reverse, List.map_reverse]
  refine ⟨hrev, ?_⟩
  intro id hid
  have hperm : List.Perm ((sortAsc b).map Prod.fst) (b.map Prod.fst) :=
    (sortAsc_perm b).map Prod.fst
  have hnd' : ((sortAsc b).map Prod.fst).Nodup := hperm.nodup_iff.mpr hnd
  have hmem : id ∈ (sortAsc b).map Prod.fst := hperm.mem_iff.mpr hid
  have hlen : ((sortAsc b).map Prod.fst).length = b.length := by
    rw [hperm.length_eq, List.length_map]
  have hi : ((sortAsc b).map Prod.fst).indexOf id < ((sortAsc b).map Prod.fst).length :=
    List.indexOf_lt_length.mpr hmem
  have hi' : ((sortAsc b).map Prod.fst).length - 1 - ((sortAsc b).map Prod.fst).indexOf id
      < ((sortAsc b).map Prod.fst).reverse.length := by
    rw [List.length_reverse]; omega
  have hgetrev : ((sortAsc b).map Prod.fst).reverse.get
      ⟨((sortAsc b).map Prod.fst).length - 1
        - ((sortAsc b).map Prod.fst).indexOf id, hi'⟩ = id := by
    rw [List.get_eq_getElem, List.getElem_reverse]
    have heq : ((sortAsc b).map Prod.fst).length - 1 -
        (((sortAsc b).map Prod.fst).length - 1 - ((sortAsc b).map Prod.fst).indexOf id) =
        ((sortAsc b).map Prod.fst).indexOf id := by omega
    simp only [heq]
    exact List.getElem_indexOf hi
  have hidxrev : ((sortAsc b).map Prod.fst).reverse.indexOf id =
      ((sortAsc b).map Prod.fst).length - 1 - ((sortAsc b).map Prod.fst).indexOf id := by
    have h := List.indexOf_getElem (List.nodup_reverse.mpr hnd')
      (((sortAsc b).map Prod.fst).length - 1 - ((sortAsc b).map Prod.fst).indexOf id) hi'
    conv_lhs => rw [← hgetrev]
    exact h
  unfold rank_desc rank_asc
  rw [hrev, hidxrev]
  omega

/-- Witness for C5 at the concrete board `[(1, 0.5), (2, 0.75)]` and member 2. -/
theorem range_desc_reverse_of_range_asc_witness :
    rank_desc [(1, (1 : ℚ)/2), (2, 3/4)] 2 + rank_asc [(1, (1 : ℚ)/2), (2, 3/4)] 2 =
      [(1, (1 : ℚ)/2), (2, 3/4)].length + 1 :=
  (range_desc_reverse_of_range_asc [(1, (1 : ℚ)/2), (2, 3/4)] (by decide)).2 2 (by decide)

/-! ## Association-list lemmas for the sorted set and the two tables -/

theorem find?_filter_of_imp {α : Type} (l : List α) (p q : α → Bool)
    (h : ∀ x, p x = true → q x = true) :
    (l.filter q).find? p = l.find? p := by
  induction l with
  | nil => rfl
  | cons a t ih =>
      by_cases hq : q a
      · rw [List.filter_cons_of_pos hq]
        by_cases hp : p a
        · rw [List.find?_cons_of_pos _ hp, List.find?_cons_of_pos _ hp]
        · rw [List.find?_cons_of_neg _ hp, List.find?_cons_of_neg _ hp, ih]
      · rw [List.filter_cons_of_neg hq]
        have hp : ¬ p a = true := fun hp => hq (h a hp)
        rw [List.find?_cons_of_neg _ hp, ih]

theorem find?_filter_none {α : Type} (l : List α) (p q : α → Bool)
    (h : ∀ x, p x = true → q x = false) :
    (l.filter q).find? p = none := by
  rw [List.find?_eq_none]
  intro x hx hpx
  have hmem := (List.mem_filter.mp hx).2
  rw [h x hpx] at hmem
  exact Bool.false_ne_true hmem

theorem find?_map_update (b : List (Nat × ℚ)) (id : Nat) (sc : ℚ)
    (h : b.any (fun p => p.1 == id) = true) :
    (b.map (fun p => if p.1 == id then (id, sc) else p)).find? (fun p => p.1 == id)
      = some (id, sc) := by
  induction b with
  | nil => simp at h
  | cons a t ih =>
      rw [List.map_cons]
      by_cases ha : a.1 == id
      · rw [if_pos ha]
        exact List.find?_cons_of_pos (p := fun q : Nat × ℚ => q.1 == id) _ (by simp)
      · rw [if_neg ha]
        rw [List.find?_cons_of_neg (p := fun q : Nat × ℚ => q.1 == id) _ ha]
        apply ih
        simp only [List.any_cons, Bool.or_eq_true] at h
        rcases h with h | h
        · exact absurd h ha
        · exact h

theorem find?_map_update_other (b : List (Nat × ℚ)) (id id' : Nat) (sc : ℚ)
    (hne : id' ≠ id) :
    (b.map (fun p => if p.1 == id then (id, sc) else p)).find? (fun p => p.1 == id')
      = b.find? (fun p => p.1 == id') := by
  induction b with
  | nil => rfl
  | cons a t ih =>
      rw [List.map_cons]
      by_cases ha : a.1 == id
      · rw [if_pos ha]
        have ha' : a.1 = id := by simpa using ha
        have h1 : ¬ ((id, sc).1 == id') = true := by
          simp only [beq_iff_eq]
          exact fun e => hne e.symm
        have h2 : ¬ (a.1 == id') = true := by
          simp only [beq_iff_eq, ha']
          exact fun e => hne e.symm
        rw [List.find?_cons_of_neg (p := fun q : Nat × ℚ => q.1 == id') _ h1,
          List.find?_cons_of_neg (p := fun q : Nat × ℚ => q.1 == id') _ h2, ih]
      · rw [if_neg ha]
        by_cases hp : a.1 == id'
        · rw [List.find?_cons_of_pos (p := fun q : Nat × ℚ => q.1 == id') _ hp,
            List.find?_cons_of_pos (p := fun q : Nat × ℚ => q.1 == id') _ hp]
        · rw [List.find?_cons_of_neg (p := fun q : Nat × ℚ => q.1 == id') _ hp,
            List.find?_cons_of_neg (p := fun q : Nat × ℚ => q.1 == id') _ hp, ih]

theorem zscore_zadd_self (b : List (Nat × ℚ)) (id : Nat) (sc : ℚ) :
    zscore (zadd b id sc) id = some sc := by
  unfold zadd zscore
  by_cases h : b.any (fun p => p.1 == id)
  · rw [if_pos h, find?_map_update b id sc h]
    rfl
  · rw [if_neg h, List.find?_append]
    have hnone : b.find? (fun p => p.1 == id) = none := by
      rw [List.find?_eq_none]
      intro x hx hbeq
      exact h (List.any_eq_true.mpr ⟨x, hx, hbeq⟩)
    rw [hnone]
    simp [List.find?]

theorem zscore_zadd_other (b : List (Nat × ℚ)) (id id' : Nat) (sc : ℚ)
    (hne : id' ≠ id) : zscore (zadd b id sc) id' = zscore b id' := by
  unfold zadd zscore
  by_cases h : b.any (fun p => p.1 == id)
  · rw [if_pos h, find?_map_update_other b id id' sc hne]
  · rw [if_neg h, List.find?_append]
    have hlast : List.find? (fun q : Nat × ℚ => q.1 == id') [(id, sc)] = none := by
      have hfalse : (id == id') = false := beq_eq_false_iff_ne.mpr (Ne.symm hne)
      simp only [List.find?, hfalse]
    rw [hlast]
    cases b.find? (fun p => p.1 == id') <;> rfl

theorem zscore_zrem_self (b : List (Nat × ℚ)) (id : Nat) :
    zscore (zrem b id) id = none := by
  unfold zrem zscore
  rw [find?_filter_none]
  · rfl
  · intro x hx
    simp [hx]

theorem zscore_zrem_other (b : List (Nat × ℚ)) (id id' : Nat) (hne : id' ≠ id) :
    zscore (zrem b id) id' = zscore b id' := by
  unfold zrem zscore
  rw [find?_filter_of_imp]
  intro x hx
  simp only [beq_iff_eq] at hx
  simp [hx, hne]

theorem zadd_idem (b : List (Nat × ℚ)) (id : Nat) (sc : ℚ) :
    zadd (zadd b id sc) id sc = zadd b id sc := by
  unfold zadd
  by_cases h : b.any (fun p => p.1 == id)
  · rw [if_pos h]
    have hany : (b.map (fun p => if p.1 == id then (id, sc) else p)).any
        (fun p => p.1 == id) = true := by
      rcases List.any_eq_true.mp h with ⟨p, hp, hbeq⟩
      refine List.any_eq_true.mpr ⟨(id, sc), ?_, by simp⟩
      refine List.mem_map.mpr ⟨p, hp, ?_⟩
      rw [if_pos hbeq]
    rw [if_pos hany, List.map_map]
    apply List.map_congr_left
    intro p _
    by_cases hp : p.1 == id
    · simp [Function.comp, hp]
    · simp [Function.comp, hp]
  · rw [if_neg h]
    have hany : (b ++ [(id, sc)]).any (fun p => p.1 == id) = true :=
      List.any_eq_true.mpr ⟨(id, sc), by simp, by simp⟩
    rw [if_pos hany, List.map_append]
    have hb : b.map (fun p => if p.1 == id then (id, sc) else p) = b := by
      have hcongr : b.map (fun p => if p.1 == id then (id, sc) else p) =
          b.map (fun p => p) :=
        List.map_congr_left (fun p hp => by
          rw [if_neg (fun hbeq => h (List.any_eq_true.mpr ⟨p, hp, hbeq⟩))])
      rw [hcongr, List.map_id']
    rw [hb]
    simp

@[simp] theorem getRestaurant_set_board (s : AppState) (x : List (Nat × ℚ))
    (rid : Nat) : getRestaurant { s with board := x } rid = getRestaurant s rid := rfl

@[simp] theorem reviewsOf_set_board (s : AppState) (x : List (Nat × ℚ))
    (rid : Nat) : reviewsOf { s with board := x } rid = reviewsOf s rid := rfl

/-- `update_leaderboard` in closed form. -/
theorem update_leaderboard_eq (s : AppState) (rid : Nat) :
    update_leaderboard s rid =
      if (getRestaurant s rid).isSome ∧ reviewsOf s rid ≠ [] then
        { s with board := zadd s.board rid (get_average_sentiment (reviewsOf s rid)) }
      else s := by
  unfold update_leaderboard update_leaderboardF
  cases hg : getRestaurant s rid with
  | none => simp [hg]
  | some r => by_cases hrv : reviewsOf s rid = [] <;> simp [hg, hrv]

theorem update_leaderboard_idem (s : AppState) (rid : Nat) :
    update_leaderboard (update_leaderboard s rid) rid = update_leaderboard s rid := by
  rw [update_leaderboard_eq s rid]
  by_cases hc : (getRestaurant s rid).isSome ∧ reviewsOf s rid ≠ []
  · rw [if_pos hc, update_leaderboard_eq]
    rw [if_pos (by simpa using hc)]
    simp [zadd_idem]
  · rw [if_neg hc, update_leaderboard_eq, if_neg hc]

/-- C4: the sorted-set upsert is idempotent — calling `zadd` twice with the
same member and score leaves the leaderboard index in the same state as
calling it once, and consequently the whole `update_leaderboard`
synchronizer step is idempotent as well. -/
theorem upsert_idempotent :
    (∀ (b : List (Nat × ℚ)) (id : Nat) (sc : ℚ),
        zadd (zadd b id sc) id sc = zadd b id sc) ∧
    (∀ (s : AppState) (rid : Nat),
        update_leaderboard (update_leaderboard s rid) rid = update_leaderboard s rid) :=
  ⟨zadd_idem, update_leaderboard_idem⟩

/-! ## The aggregate calculator -/

theorem avg_eq_spec (reviews : List Review) :
    get_average_sentiment reviews =
      specAverageSentiment (reviews.map (·.sentiment_score)) := by
  unfold get_average_sentiment specAverageSentiment
  by_cases h : reviews = []
  · simp [h]
  · rw [if_neg h, if_neg (by simpa using h), List.length_map]

/-- C3: `get_average_sentiment` returns `0` when the review set is empty and
otherwise the arithmetic mean of the sentiment scores rounded to two decimal
places.  (In this embedding it is a Lean function, hence free of side
effects by construction.) -/
theorem average_sentiment_contract (reviews : List Review) :
    (reviews = [] → get_average_sentiment reviews = 0) ∧
    (reviews ≠ [] → get_average_sentiment reviews =
      round2 ((reviews.map (·.sentiment_score)).sum / reviews.length)) := by
  constructor
  · intro h
    rw [avg_eq_spec, specAverageSentiment, if_pos (by simp [h])]
  · intro h
    rw [avg_eq_spec, specAverageSentiment, if_neg (by simpa using h), List.length_map]

/-- Witness for C3: the empty review set and a one-review set. -/
theorem average_sentiment_contract_witness :
    get_average_sentiment [] = 0 ∧
    get_average_sentiment [⟨1, "ok", 1/2, "positive"⟩] =
      round2 ((([⟨1, "ok", 1/2, "positive"⟩] : List Review).map
        (·.sentiment_score)).sum / ([⟨1, "ok", 1/2, "positive"⟩] : List Review).length) :=
  ⟨(average_sentiment_contract []).1 rfl,
    (average_sentiment_contract [⟨1, "ok", 1/2, "positive"⟩]).2 (by simp)⟩

/-- C6: for any two insertion orders of the same collection of reviews, the
computed average sentiment is identical, and it always equals the rounded
arithmetic mean of the score multiset. -/
theorem average_sentiment_perm_invariant (l₁ l₂ : List Review)
    (h : List.Perm l₁ l₂) :
    get_average_sentiment l₁ = get_average_sentiment l₂ ∧
    get_average_sentiment l₁ =
      specAverageSentiment (l₁.map (·.sentiment_score)) := by
  refine ⟨?_, avg_eq_spec l₁⟩
  unfold get_average_sentiment
  have hsum : (l₁.map (·.sentiment_score)).sum = (l₂.map (·.sentiment_score)).sum :=
    (h.map (·.sentiment_score)).sum_eq
  have hlen : l₁.length = l₂.length := h.length_eq
  by_cases h1 : l₁ = []
  · have h2 : l₂ = [] := by
      subst h1
      exact h.symm.eq_nil
    rw [h1, h2]
  · have h2 : l₂ ≠ [] := fun e => h1 (by rw [e] at h; exact h.eq_nil)
    rw [if_neg h1, if_neg h2, hsum, hlen]

/-- Witness for C6: two reviews inserted in the two possible orders. -/
theorem average_sentiment_perm_invariant_witness :
    get_average_sentiment [⟨1, "a", 1/2, "positive"⟩, ⟨1, "b", -(1/4), "negative"⟩] =
      get_average_sentiment [⟨1, "b", -(1/4), "negative"⟩, ⟨1, "a", 1/2, "positive"⟩] ∧
    get_average_sentiment [⟨1, "a", 1/2, "positive"⟩, ⟨1, "b", -(1/4), "negative"⟩] =
      specAverageSentiment (([⟨1, "a", 1/2, "positive"⟩,
        ⟨1, "b", -(1/4), "negative"⟩] : List Review).map (·.sentiment_score)) :=
  average_sentiment_perm_invariant _ _
    (List.Perm.swap (⟨1, "b", -(1/4), "negative"⟩ : Review)
      (⟨1, "a", 1/2, "positive"⟩ : Review) [])

/-! ## Error handling -/

/-- C7: validation and not-found errors return immediately and mutate
nothing — a `POST /reviews` with a missing (or Python-falsy) field returns
400 with the state unchanged; a `POST /reviews` naming an unknown restaurant
returns 404 with the state unchanged; a `DELETE /restaurants/<id>` naming an
unknown restaurant returns 404 with the state unchanged. -/
theorem errors_do_not_mutate (analyze : String → ℚ × String) (s : AppState)
    (rid? : Option Nat) (text? : Option String) (rid : Nat) :
    ((isFalsyNat rid? || isFalsyStr text?) = true →
      add_review analyze s rid? text? = ((400, none), s)) ∧
    ((isFalsyNat rid? || isFalsyStr text?) = false →
      getRestaurant s (rid?.getD 0) = none →
      add_review analyze s rid? text? = ((404, none), s)) ∧
    (getRestaurant s rid = none → delete_restaurant s rid = (404, s)) := by
  refine ⟨?_, ?_, ?_⟩
  · intro h
    unfold add_review add_reviewF
    rw [if_pos h]
  · intro h hnone
    unfold add_review add_reviewF
    rw [if_neg (by simp [h])]
    simp only [hnone]
  · intro h
    unfold delete_restaurant
    rw [h]

/-- The freshly initialized application state: empty tables, empty board. -/
def emptyState : AppState := ⟨[], [], 1, []⟩

/-- Witness for C7 on concrete requests against the empty state. -/
theorem errors_do_not_mutate_witness :
    (add_review (fun _ => (0, "neutral")) emptyState none (some "x") =
      ((400, none), emptyState)) ∧
    (add_review (fun _ => (0, "neutral")) emptyState (some 1) (some "x") =
      ((404, none), emptyState)) ∧
    (delete_restaurant emptyState 7 = (404, emptyState)) :=
  ⟨(errors_do_not_mutate (fun _ => (0, "neutral")) emptyState none (some "x") 7).1
      (by decide),
    (errors_do_not_mutate (fun _ => (0, "neutral")) emptyState (some 1) (some "x") 7).2.1
      (by decide) rfl,
    (errors_do_not_mutate (fun _ => (0, "neutral")) emptyState none (some "x") 7).2.2 rfl⟩

/-! ## The leaderboard consistency invariant (C1) -/

/-- Record-store well-formedness, maintained by the record store itself:
primary keys are below the autoincrement counter, and every review's foreign
key references an existing restaurant. -/
def WF (s : AppState) : Prop :=
  (∀ r ∈ s.restaurants, r.id < s.nextId) ∧
  (∀ rv ∈ s.reviews, (getRestaurant s rv.restaurant_id).isSome = true)

/-- The C1 invariant: a leaderboard entry exists for `rid` iff the restaurant
exists and owns at least one review, and every stored score is the
two-decimal-rounded average of the owned reviews' sentiment scores. -/
def Inv (s : AppState) : Prop :=
  (∀ rid, (zscore s.board rid).isSome = true ↔
      (getRestaurant s rid).isSome = true ∧ reviewsOf s rid ≠ []) ∧
  (∀ rid q, zscore s.board rid = some q →
      q = get_average_sentiment (reviewsOf s rid))

theorem filter_of_filter_imp {α : Type} (l : List α) (p q : α → Bool)
    (h : ∀ x, p x = true → q x = true) :
    (l.filter q).filter p = l.filter p := by
  induction l with
  | nil => rfl
  | cons a t ih =>
      by_cases hq : q a
      · rw [List.filter_cons_of_pos hq]
        by_cases hp : p a
        · rw [List.filter_cons_of_pos hp, List.filter_cons_of_pos hp, ih]
        · rw [List.filter_cons_of_neg hp, List.filter_cons_of_neg hp, ih]
      · rw [List.filter_cons_of_neg hq]
        have hp : ¬ p a = true := fun hp => hq (h a hp)
        rw [List.filter_cons_of_neg hp, ih]

theorem getRestaurant_nextId_none (s : AppState) (hWF : WF s) :
    getRestaurant s s.nextId = none := by
  unfold getRestaurant
  rw [List.find?_eq_none]
  intro r hr
  simp only [beq_iff_eq]
  intro hEq
  have := hWF.1 r hr
  omega

theorem reviewsOf_nil_of_no_restaurant (s : AppState) (hWF : WF s) (rid : Nat)
    (hnone : getRestaurant s rid = none) : reviewsOf s rid = [] := by
  unfold reviewsOf
  rw [List.filter_eq_nil_iff]
  intro rv hrv
  simp only [beq_iff_eq]
  intro hEq
  have hs := hWF.2 rv hrv
  rw [hEq, hnone] at hs
  simp at hs

/-- The state produced by a successful `POST /restaurants`. -/
def insertState (s : AppState) (nm loc : String) : AppState :=
  { s with
    restaurants := s.restaurants ++ [⟨s.nextId, nm, loc⟩],
    nextId := s.nextId + 1 }

theorem WF_Inv_insert_restaurant (s : AppState) (hWF : WF s) (hInv : Inv s)
    (nm loc : String) :
    WF (insertState s nm loc) ∧ Inv (insertState s nm loc) := by
  have hnoNew : getRestaurant s s.nextId = none := getRestaurant_nextId_none s hWF
  have hrvNew : reviewsOf s s.nextId = [] :=
    reviewsOf_nil_of_no_restaurant s hWF s.nextId hnoNew
  have hgetSome : ∀ rid,
      (getRestaurant (insertState s nm loc) rid).isSome
        = ((getRestaurant s rid).isSome || (s.nextId == rid)) := by
    intro rid
    show (List.find? (fun r : Restaurant => r.id == rid)
      (s.restaurants ++ [(⟨s.nextId, nm, loc⟩ : Restaurant)])).isSome = _
    rw [List.find?_append, Option.isSome_or]
    have hone : (List.find? (fun r : Restaurant => r.id == rid)
        [(⟨s.nextId, nm, loc⟩ : Restaurant)]).isSome = (s.nextId == rid) := by
      cases hb : ((s.nextId : Nat) == rid) with
      | true => simp [List.find?, hb]
      | false => simp [List.find?, hb]
    rw [hone]
    rfl
  constructor
  · constructor
    · intro r hr
      rcases List.mem_append.mp hr with h | h
      · have := hWF.1 r h
        show r.id < s.nextId + 1
        omega
      · rcases List.mem_singleton.mp h with rfl
        show s.nextId < s.nextId + 1
        omega
    · intro rv hrv
      rw [hgetSome]
      have := hWF.2 rv hrv
      simp [this]
  · constructor
    · intro rid
      rw [hgetSome]
      constructor
      · intro hs
        have := (hInv.1 rid).mp hs
        exact ⟨by simp [this.1], this.2⟩
      · rintro ⟨hsome, hne⟩
        simp only [Bool.or_eq_true] at hsome
        rcases hsome with h | h
        · exact (hInv.1 rid).mpr ⟨h, hne⟩
        · have hrid : s.nextId = rid := by simpa using h
          rw [← hrid] at hne
          exact absurd hrvNew hne
    · intro rid q h
      exact hInv.2 rid q h

theorem WF_Inv_add_restaurant (s : AppState) (hWF : WF s) (hInv : Inv s)
    (name? location? : Option String) :
    WF (add_restaurant s name? location?).2 ∧
    Inv (add_restaurant s name? location?).2 := by
  unfold add_restaurant
  by_cases hval : (isFalsyStr name? || isFalsyStr location?) = true
  · rw [if_pos hval]
    exact ⟨hWF, hInv⟩
  · rw [if_neg hval]
    exact WF_Inv_insert_restaurant s hWF hInv _ _

theorem update_leaderboardF_true (s : AppState) (rid : Nat) :
    update_leaderboardF true s rid = some (update_leaderboard s rid) := by
  cases hg : getRestaurant s rid with
  | none => simp [update_leaderboard, update_leaderboardF, hg]
  | some r =>
      by_cases hrv : reviewsOf s rid = [] <;>
        simp [update_leaderboard, update_leaderboardF, hg, hrv]

theorem reviewsOf_reviewState_self (s : AppState) (rv : Review) :
    reviewsOf (reviewState s rv) rv.restaurant_id
      = reviewsOf s rv.restaurant_id ++ [rv] := by
  show (s.reviews ++ [rv]).filter (fun x => x.restaurant_id == rv.restaurant_id) = _
  rw [List.filter_append]
  simp [reviewsOf]

theorem reviewsOf_reviewState_other (s : AppState) (rv : Review) (rid : Nat)
    (hne : rv.restaurant_id ≠ rid) :
    reviewsOf (reviewState s rv) rid = reviewsOf s rid := by
  show (s.reviews ++ [rv]).filter (fun x => x.restaurant_id == rid) = _
  rw [List.filter_append]
  have hnil : List.filter (fun x : Review => x.restaurant_id == rid) [rv] = [] := by
    simp [List.filter, beq_eq_false_iff_ne.mpr hne]
  rw [hnil, List.append_nil]
  rfl

theorem WF_Inv_update_after_review (s : AppState) (hWF : WF s) (hInv : Inv s)
    (rv : Review) (hg : (getRestaurant s rv.restaurant_id).isSome = true) :
    WF (update_leaderboard (reviewState s rv) rv.restaurant_id) ∧
    Inv (update_leaderboard (reviewState s rv) rv.restaurant_id) := by
  have hself := reviewsOf_reviewState_self s rv
  have hcondne : reviewsOf (reviewState s rv) rv.restaurant_id ≠ [] := by
    rw [hself]
    simp
  rw [update_leaderboard_eq, if_pos ⟨hg, hcondne⟩]
  constructor
  · constructor
    · intro r hr
      have hr' : r ∈ s.restaurants := hr
      show r.id < s.nextId
      exact hWF.1 r hr'
    · intro rv' hrv'
      have h2 : rv' ∈ s.reviews ++ [rv] := hrv'
      show (getRestaurant s rv'.restaurant_id).isSome = true
      rcases List.mem_append.mp h2 with h | h
      · exact hWF.2 rv' h
      · rcases List.mem_singleton.mp h with rfl
        exact hg
  · constructor
    · intro rid'
      show (zscore (zadd s.board rv.restaurant_id
          (get_average_sentiment (reviewsOf (reviewState s rv) rv.restaurant_id)))
            rid').isSome = true ↔
        (getRestaurant s rid').isSome = true ∧ reviewsOf (reviewState s rv) rid' ≠ []
      by_cases he : rid' = rv.restaurant_id
      · subst he
        rw [zscore_zadd_self]
        simp [hg, hcondne]
      · rw [zscore_zadd_other s.board rv.restaurant_id rid' _ he,
          reviewsOf_reviewState_other s rv rid' (fun e => he e.symm)]
        exact hInv.1 rid'
    · intro rid' q hq
      show q = get_average_sentiment (reviewsOf (reviewState s rv) rid')
      by_cases he : rid' = rv.restaurant_id
      · subst he
        have hq' : zscore (zadd s.board rv.restaurant_id
            (get_average_sentiment (reviewsOf (reviewState s rv) rv.restaurant_id)))
              rv.restaurant_id = some q := hq
        rw [zscore_zadd_self] at hq'
        exact (Option.some_inj.mp hq').symm
      · have hq' : zscore (zadd s.board rv.restaurant_id
            (get_average_sentiment (reviewsOf (reviewState s rv) rv.restaurant_id)))
              rid' = some q := hq
        rw [zscore_zadd_other s.board rv.restaurant_id rid' _ he] at hq'
        rw [reviewsOf_reviewState_other s rv rid' (fun e => he e.symm)]
        exact hInv.2 rid' q hq'

theorem WF_Inv_add_review (s : AppState) (hWF : WF s) (hInv : Inv s)
    (analyze : String → ℚ × String) (rid? : Option Nat) (text? : Option String) :
    WF (add_review analyze s rid? text?).2 ∧
    Inv (add_review analyze s rid? text?).2 := by
  unfold add_review add_reviewF
  by_cases hval : (isFalsyNat rid? || isFalsyStr text?) = true
  · rw [if_pos hval]
    exact ⟨hWF, hInv⟩
  · rw [if_neg hval]
    cases hg : getRestaurant s (rid?.getD 0) with
    | none =>
        simp only [hg]
        exact ⟨hWF, hInv⟩
    | some r =>
        simp only [hg, update_leaderboardF_true]
        exact WF_Inv_update_after_review s hWF hInv
          ⟨rid?.getD 0, text?.getD "",
            (analyze (text?.getD "")).1, (analyze (text?.getD "")).2⟩
          (by rw [hg]; rfl)

/-- The state produced by a successful `DELETE /restaurants/<rid>`. -/
def deleteState (s : AppState) (rid : Nat) : AppState :=
  { s with
    restaurants := s.restaurants.filter (fun r => ! (r.id == rid)),
    reviews := s.reviews.filter (fun rv => ! (rv.restaurant_id == rid)),
    board := zrem s.board rid }

theorem getRestaurant_deleteState_self (s : AppState) (rid : Nat) :
    getRestaurant (deleteState s rid) rid = none := by
  show (s.restaurants.filter (fun r => ! (r.id == rid))).find?
    (fun r => r.id == rid) = none
  apply find?_filter_none
  intro x hx
  simp [hx]

theorem getRestaurant_deleteState_other (s : AppState) (rid rid2 : Nat)
    (hne : rid2 ≠ rid) :
    getRestaurant (deleteState s rid) rid2 = getRestaurant s rid2 := by
  show (s.restaurants.filter (fun r => ! (r.id == rid))).find?
    (fun r => r.id == rid2) = getRestaurant s rid2
  rw [find?_filter_of_imp]
  · rfl
  · intro x hx
    simp only [beq_iff_eq] at hx
    simp [hx, hne]

theorem reviewsOf_deleteState_self (s : AppState) (rid : Nat) :
    reviewsOf (deleteState s rid) rid = [] := by
  show (s.reviews.filter (fun rv => ! (rv.restaurant_id == rid))).filter
    (fun rv => rv.restaurant_id == rid) = []
  rw [List.filter_eq_nil_iff]
  intro rv hrv
  have h2 := (List.mem_filter.mp hrv).2
  intro hq
  rw [hq] at h2
  simp at h2

theorem reviewsOf_deleteState_other (s : AppState) (rid rid2 : Nat)
    (hne : rid2 ≠ rid) :
    reviewsOf (deleteState s rid) rid2 = reviewsOf s rid2 := by
  show (s.reviews.filter (fun rv => ! (rv.restaurant_id == rid))).filter
    (fun rv => rv.restaurant_id == rid2) = reviewsOf s rid2
  rw [filter_of_filter_imp]
  · rfl
  · intro x hx
    simp only [beq_iff_eq] at hx
    simp [hx, hne]

theorem WF_Inv_delete_restaurant (s : AppState) (hWF : WF s) (hInv : Inv s)
    (rid : Nat) :
    WF (delete_restaurant s rid).2 ∧ Inv (delete_restaurant s rid).2 := by
  unfold delete_restaurant
  cases hg : getRestaurant s rid with
  | none =>
      simp only [hg]
      exact ⟨hWF, hInv⟩
  | some r =>
      simp only [hg]
      constructor
      · constructor
        · intro r2 hr2
          have hr2' : r2 ∈ s.restaurants.filter (fun x => ! (x.id == rid)) := hr2
          have hmem := (List.mem_filter.mp hr2').1
          show r2.id < s.nextId
          exact hWF.1 r2 hmem
        · intro rv hrv
          have hrv' : rv ∈ s.reviews.filter (fun x => ! (x.restaurant_id == rid)) := hrv
          have hmem := List.mem_filter.mp hrv'
          have hne : rv.restaurant_id ≠ rid := by
            intro he
            have := hmem.2
            rw [he] at this
            simp at this
          show (getRestaurant (deleteState s rid) rv.restaurant_id).isSome = true
          rw [getRestaurant_deleteState_other s rid rv.restaurant_id hne]
          exact hWF.2 rv hmem.1
      · constructor
        · intro rid2
          show (zscore (zrem s.board rid) rid2).isSome = true ↔
            (getRestaurant (deleteState s rid) rid2).isSome = true ∧
              reviewsOf (deleteState s rid) rid2 ≠ []
          by_cases he : rid2 = rid
          · subst he
            rw [zscore_zrem_self, getRestaurant_deleteState_self]
            simp
          · rw [zscore_zrem_other s.board rid rid2 he,
              getRestaurant_deleteState_other s rid rid2 he,
              reviewsOf_deleteState_other s rid rid2 he]
            exact hInv.1 rid2
        · intro rid2 q hq
          show q = get_average_sentiment (reviewsOf (deleteState s rid) rid2)
          by_cases he : rid2 = rid
          · subst he
            have hq' : zscore (zrem s.board rid2) rid2 = some q := hq
            rw [zscore_zrem_self] at hq'
            exact absurd hq' (by simp)
          · have hq' : zscore (zrem s.board rid) rid2 = some q := hq
            rw [zscore_zrem_other s.board rid rid2 he] at hq'
            rw [reviewsOf_deleteState_other s rid rid2 he]
            exact hInv.2 rid2 q hq'

theorem WF_emptyState : WF emptyState :=
  ⟨fun r hr => absurd hr (List.not_mem_nil r),
   fun rv hrv => absurd hrv (List.not_mem_nil rv)⟩

theorem Inv_emptyState : Inv emptyState := by
  constructor
  · intro rid
    constructor
    · intro h
      simp [zscore, emptyState, List.find?] at h
    · rintro ⟨h, -⟩
      simp [getRestaurant, emptyState, List.find?] at h
  · intro rid q h
    simp [zscore, emptyState, List.find?] at h

/-- C1: the leaderboard invariant — an entry exists for a restaurant iff it
exists and has at least one review, every stored score is the rounded average
of its current reviews — is preserved, together with record-store
well-formedness, by each of the three mutating operations: restaurant
creation, review addition, and restaurant deletion. -/
theorem leaderboard_invariant_preserved (s : AppState) (h : WF s ∧ Inv s) :
    (∀ name? location?, WF (add_restaurant s name? location?).2 ∧
        Inv (add_restaurant s name? location?).2) ∧
    (∀ analyze rid? text?, WF (add_review analyze s rid? text?).2 ∧
        Inv (add_review analyze s rid? text?).2) ∧
    (∀ rid, WF (delete_restaurant s rid).2 ∧ Inv (delete_restaurant s rid).2) :=
  ⟨fun n l => WF_Inv_add_restaurant s h.1 h.2 n l,
   fun a r t => WF_Inv_add_review s h.1 h.2 a r t,
   fun rid => WF_Inv_delete_restaurant s h.1 h.2 rid⟩

/-- Witness for C1: the freshly initialized state satisfies the invariant, and
the theorem applies to it. -/
theorem leaderboard_invariant_preserved_witness :
    (WF (add_restaurant emptyState (some "A") (some "loc")).2 ∧
      Inv (add_restaurant emptyState (some "A") (some "loc")).2) ∧
    (WF (delete_restaurant emptyState 3).2 ∧ Inv (delete_restaurant emptyState 3).2) :=
  ⟨(leaderboard_invariant_preserved emptyState ⟨WF_emptyState, Inv_emptyState⟩).1
      (some "A") (some "loc"),
   (leaderboard_invariant_preserved emptyState ⟨WF_emptyState, Inv_emptyState⟩).2.2 3⟩

/-! ## N = 0 range queries (C9) -/

theorem redisRange_zero_negone (l : List (Nat × ℚ)) : redisRange l 0 (-1) = l := by
  unfold redisRange redisIdx
  have h1 : ¬ ((0 : ℤ) < 0) := by omega
  have h2 : ((-1) : ℤ) < 0 := by omega
  simp only [h1, h2, if_true, if_false, ite_true, ite_false, max_self]
  by_cases hl : l = []
  · subst hl
    rw [if_neg (by simp)]
  · have hlen : 0 < l.length := List.length_pos.mpr hl
    rw [if_pos (by omega)]
    have htake : ((l.length : ℤ) + (-1)).toNat + 1 = l.length := by omega
    rw [htake, List.take_length]
    simp

/-- C9: a top-N or bottom-N request with N = 0 is mapped to the Redis range
`[0, -1]`, which the sorted set reads as "through the last element", so the
response carries the ENTIRE leaderboard — `top/0` coincides with the full
`GET /leaderboard` handler and both N = 0 queries hydrate the full sorted
sequence — rather than zero entries. -/
theorem topN_zero_returns_everything (s : AppState) :
    get_top_restaurants s 0 = hydrate s (List.enum (sortDesc s.board)) ∧
    get_bottom_restaurants s 0 = hydrate s (List.enum (sortAsc s.board)) ∧
    get_top_restaurants s 0 = get_leaderboard_from_redis s := by
  have hcast : ((0 : Nat) : ℤ) - 1 = -1 := by omega
  refine ⟨?_, ?_, ?_⟩
  · unfold get_top_restaurants zrevrange
    rw [hcast, redisRange_zero_negone]
  · unfold get_bottom_restaurants zrange
    rw [hcast, redisRange_zero_negone]
  · unfold get_top_restaurants get_leaderboard_from_redis zrevrange
    rw [hcast]

/-! ## Hydration drops unknown restaurants but keeps pre-filter ranks (C10),
and concrete states for the remaining claims -/

section ConcreteEvaluation

/- The Batteries rational-number operations are `@[irreducible]`; to let
`decide` evaluate concrete leaderboard queries we locally restore the
default reducibility (this has no effect on soundness: the kernel ignores
reducibility attributes). -/
set_option allowUnsafeReducibility true
attribute [local semireducible] Rat.add Rat.mul Rat.inv Rat.sub

/-- A state whose sorted set contains a member (id 2) with no backing
restaurant row: restaurants 1 and 3 exist, the board lists 1, 2, 3. -/
def gapState : AppState :=
  ⟨[⟨1, "A", "x"⟩, ⟨3, "C", "z"⟩],
   [⟨1, "a", 9/10, "positive"⟩, ⟨3, "c", 1/10, "positive"⟩],
   4, [(1, 9/10), (2, 1/2), (3, 1/10)]⟩

/-- The first entry served by `get_top_restaurants gapState 3` (and by the
full-leaderboard query over `gapState`). -/
def gapEntry : RankedEntry := ⟨1, ⟨1, "A", "x", 9/10, 1⟩, 9/10⟩

/-- The first entry served by `get_bottom_restaurants gapState 3`. -/
def bottomGapEntry : RankedEntry := ⟨1, ⟨3, "C", "z", 1/10, 1⟩, 1/10⟩

/-- Shared shape of the three handler loops: every entry produced by
`hydrate` names a restaurant present in the record store, and its reported
rank is `i + 1` for `i` its position in the *unfiltered* enumerated reply. -/
theorem mem_hydrate (s : AppState) (l : List (Nat × (Nat × ℚ))) (e : RankedEntry)
    (h : e ∈ hydrate s l) :
    (getRestaurant s e.restaurant.id).isSome = true ∧
    ∃ i m sc, (i, (m, sc)) ∈ l ∧ e.restaurant.id = m ∧ e.rank = i + 1 := by
  unfold hydrate at h
  rcases List.mem_filterMap.mp h with ⟨p, hp, hfp⟩
  rcases p with ⟨i, m, sc⟩
  cases hg : getRestaurant s m with
  | none =>
      rw [hg] at hfp
      cases hfp
  | some r =>
      rw [hg] at hfp
      have he := Option.some_inj.mp hfp
      subst he
      have hid : r.id = m := by
        have hfind := List.find?_some (p := fun rr : Restaurant => rr.id == m)
          (l := s.restaurants) (a := r) hg
        simpa using hfind
      refine ⟨?_, i, m, sc, hp, ?_, rfl⟩
      · show (getRestaurant s r.id).isSome = true
        rw [hid, hg]
        rfl
      · show r.id = m
        exact hid

/-- C10: for every leaderboard query — full, top-N and bottom-N — every
served entry names a restaurant that exists in the record store (board
members without a backing row are silently dropped), and its reported rank
is `idx + 1` for `idx` the entry's position in the *unfiltered* Redis range
reply — so the served list can skip rank numbers and hold fewer than N
entries even when N valid restaurants exist further down the index, as the
concrete `gapState` queries show: `top/2` and `bottom/2` each serve a single
entry although two valid restaurants are on the board, and `top/3` and
`bottom/3` serve ranks 1 and 3 with no rank 2. -/
theorem hydration_silently_omits (s : AppState) (n : Nat) (e : RankedEntry) :
    (e ∈ get_top_restaurants s n →
      (getRestaurant s e.restaurant.id).isSome = true ∧
      ∃ i m sc, (i, (m, sc)) ∈ (zrevrange s.board 0 ((n : ℤ) - 1)).enum ∧
        e.restaurant.id = m ∧ e.rank = i + 1) ∧
    (e ∈ get_bottom_restaurants s n →
      (getRestaurant s e.restaurant.id).isSome = true ∧
      ∃ i m sc, (i, (m, sc)) ∈ (zrange s.board 0 ((n : ℤ) - 1)).enum ∧
        e.restaurant.id = m ∧ e.rank = i + 1) ∧
    (e ∈ get_leaderboard_from_redis s →
      (getRestaurant s e.restaurant.id).isSome = true ∧
      ∃ i m sc, (i, (m, sc)) ∈ (zrevrange s.board 0 (-1)).enum ∧
        e.restaurant.id = m ∧ e.rank = i + 1) ∧
    (get_top_restaurants gapState 2).map (fun x => (x.rank, x.restaurant.id))
      = [(1, 1)] ∧
    (get_top_restaurants gapState 3).map (fun x => (x.rank, x.restaurant.id))
      = [(1, 1), (3, 3)] ∧
    (get_bottom_restaurants gapState 2).map (fun x => (x.rank, x.restaurant.id))
      = [(1, 3)] ∧
    (get_bottom_restaurants gapState 3).map (fun x => (x.rank, x.restaurant.id))
      = [(1, 3), (3, 1)] := by
  refine ⟨?_, ?_, ?_, by decide, by decide, by decide, by decide⟩
  · exact fun h =>
      mem_hydrate s (List.enum (zrevrange s.board 0 ((n : ℤ) - 1))) e h
  · exact fun h =>
      mem_hydrate s (List.enum (zrange s.board 0 ((n : ℤ) - 1))) e h
  · exact fun h =>
      mem_hydrate s (List.enum (zrevrange s.board 0 (-1))) e h

/-- Witness for C10 at the first entries of `top/3`, `bottom/3` and the full
leaderboard over `gapState`. -/
theorem hydration_silently_omits_witness :
    ((getRestaurant gapState gapEntry.restaurant.id).isSome = true ∧
      ∃ i m sc, (i, (m, sc)) ∈ (zrevrange gapState.board 0 (((3 : Nat) : ℤ) - 1)).enum ∧
        gapEntry.restaurant.id = m ∧ gapEntry.rank = i + 1) ∧
    ((getRestaurant gapState bottomGapEntry.restaurant.id).isSome = true ∧
      ∃ i m sc, (i, (m, sc)) ∈ (zrange gapState.board 0 (((3 : Nat) : ℤ) - 1)).enum ∧
        bottomGapEntry.restaurant.id = m ∧ bottomGapEntry.rank = i + 1) ∧
    ((getRestaurant gapState gapEntry.restaurant.id).isSome = true ∧
      ∃ i m sc, (i, (m, sc)) ∈ (zrevrange gapState.board 0 (-1)).enum ∧
        gapEntry.restaurant.id = m ∧ gapEntry.rank = i + 1) :=
  ⟨(hydration_silently_omits gapState 3 gapEntry).1 (by decide),
   (hydration_silently_omits gapState 3 bottomGapEntry).2.1 (by decide),
   (hydration_silently_omits gapState 3 gapEntry).2.2.1 (by decide)⟩

/-- The C2 scenario: two restaurants, B (id 2) carrying the higher
single-review score. -/
def twoState : AppState :=
  ⟨[⟨1, "A", "x"⟩, ⟨2, "B", "y"⟩],
   [⟨1, "a", 1/10, "positive"⟩, ⟨2, "b", 9/10, "positive"⟩],
   3, [(1, 1/10), (2, 9/10)]⟩

/-- C2, evaluation of the code at the failing input: over a two-entry
leaderboard, `bottom(1)` returns the worst restaurant (id 1) with reported
rank 1 — the handler's `idx + 1` over the *ascending* range — although the
total count is 2 and the entry's global descending rank is 2; so the
reported rank is `p + 1`, not the `total_count - p` the claim demands.
(`top(1)` correctly serves B with rank 1.) -/
theorem bottom_rank_is_ascending_position :
    (get_bottom_restaurants twoState 1).map (fun x => (x.rank, x.restaurant.id))
      = [(1, 1)] ∧
    (get_top_restaurants twoState 1).map (fun x => (x.rank, x.restaurant.id))
      = [(1, 2)] ∧
    (sortAsc twoState.board).length = 2 ∧
    rank_desc twoState.board 1 = 2 := by
  exact ⟨by decide, by decide, by decide, by decide⟩

/-- A state with one restaurant (id 1), no reviews, empty board. -/
def oneRestaurantState : AppState := ⟨[⟨1, "A", "x"⟩], [], 2, []⟩

/-- C8, evaluation of the code at the failing input: when the record-store
write succeeds but the subsequent Redis upsert raises, `add_review` does not
degrade gracefully — the exception propagates, the request fails with a 500
and carries no `leaderboard_updated` flag, even though the review row is
already committed; and on the success path the flag is the hard-coded
constant `true`, so a "leaderboard not updated" success is never reported. -/
theorem add_review_not_resilient_to_index_failure :
    add_reviewF false (fun _ => (1/2, "positive")) oneRestaurantState
        (some 1) (some "great") =
      ((500, none), reviewState oneRestaurantState ⟨1, "great", 1/2, "positive"⟩) ∧
    add_reviewF true (fun _ => (1/2, "positive")) oneRestaurantState
        (some 1) (some "great") =
      ((201, some true),
        { reviewState oneRestaurantState ⟨1, "great", 1/2, "positive"⟩ with
            board := [(1, 1/2)] }) := by
  exact ⟨by decide, by decide⟩

end ConcreteEvaluation

end RestaurantReview
